import Mathlib

/-!
Shallow embedding of the news pipeline in `news_agent.py`
(classification, scoring, deduplication, balanced selection, entry parsing).

Conventions of the embedding:
* Python strings are Lean `String`s; the text-processing steps work over
  `List Char` (`String.toList`).  Python `str.lower()` is modelled by
  `Char.toLower` per character (the keyword lists are ASCII).
* Python `kw in text` (substring test) is `containsSub` below.
* Python `datetime` values are modelled as `Int` POSIX-style timestamps in
  seconds; `timedelta.days` is floor division by 86400 (`Int.fdiv`), which
  matches Python's flooring semantics.
* `list.sort(key=score, reverse=True)` is a stable descending sort, modelled
  by `List.mergeSort` with the comparison `b.score ≤ a.score` (ties keep
  input order, as in CPython).
-/

namespace NewsAgent

/-- Configuration constant `TOTAL_ARTICLES = 9` (news_agent.py line 65). -/
def TOTAL_ARTICLES : Nat := 9

/-- Configuration constant `SLOTS_ROMANIA = 3` (line 68). -/
def SLOTS_ROMANIA : Nat := 3

/-- Configuration constant `SLOTS_EUROPE = 3` (line 69). -/
def SLOTS_EUROPE : Nat := 3

/-- Configuration constant `SLOTS_GLOBAL = 3` (line 70). -/
def SLOTS_GLOBAL : Nat := 3

/-- Configuration constant `MAX_AGE_DAYS = 14` (line 75). -/
def MAX_AGE_DAYS : Int := 14

/-- The article dictionary built by `parse_entry` (lines 308-319).
`date_obj` is `none` when no date field parsed (the empty string in Python). -/
structure Article where
  id : String
  title : String
  summary : String
  url : String
  source : String
  feed_geo : String
  geo : String
  date : String
  date_obj : Option Int
  score : Int
deriving DecidableEq

/-- `GEO_ROMANIA_KEYWORDS` (lines 188-196). -/
def GEO_ROMANIA_KEYWORDS : List String :=
  ["romania", "romanian", "bucharest", "bucuresti",
   "transylvania", "moldova", "moldavia",
   "constanta", "mamaia", "brasov", "sibiu", "cluj",
   "timisoara", "iasi", "maramures", "banat", "dobrogea",
   "black sea coast", "danube delta", "tulcea", "prahova",
   "bran", "sinaia", "poiana brasov", "vama veche",
   "bucovina", "painted monasteries"]

/-- The apostrophe character (code 39), written via `Char.ofNat` so keyword
strings can be assembled without a literal quote character. -/
def aposChar : Char := Char.ofNat 39

/-- `GEO_EUROPE_KEYWORDS` (lines 198-216).  The entry "eu's" is assembled
from characters because of the embedded apostrophe. -/
def GEO_EUROPE_KEYWORDS : List String :=
  ["europe", "european", "eu ", " eu,", String.mk (String.toList "eu" ++ [aposChar] ++ String.toList "s"),
   "mediterranean", "balkans", "balkan",
   "spain", "spanish", "france", "french", "italy", "italian",
   "greece", "greek", "portugal", "portuguese",
   "germany", "german", "austria", "austrian", "switzerland", "swiss",
   "croatia", "croatian", "slovenia", "slovenia",
   "bulgaria", "bulgarian", "serbia", "serbian", "hungary", "hungarian",
   "turkey", "turkish", "czech", "prague", "poland", "polish",
   "netherlands", "dutch", "belgium", "belgian",
   "uk ", "britain", "british", "london", "scotland", "ireland",
   "scandinavia", "nordic", "norway", "sweden", "denmark", "finland",
   "barcelona", "paris", "rome", "lisbon", "berlin", "vienna",
   "amsterdam", "dubrovnik", "santorini", "alps",
   "schengen", "eurozone", "ryanair", "easyjet", "eurowings",
   "european commission", "european parliament", "eu tourism",
   "eu fund", "erasmus", "horizon europe"]

/-- `KEYWORDS_HIGH_VALUE` (lines 225-240). -/
def KEYWORDS_HIGH_VALUE : List String :=
  ["destination marketing", "dmo", "destination management",
   "tourism strategy", "tourism board", "national tourism",
   "wine tourism", "sustainable tourism", "slow travel",
   "overtourism", "tourist tax", "tourism tax",
   "review management", "tripadvisor", "ota management",
   "travel tech", "digital campaign", "programmatic",
   "feeder market", "source market",
   "hotel marketing", "hospitality marketing",
   "mice tourism", "conference tourism",
   "cultural tourism", "heritage tourism", "rural tourism",
   "ai tourism", "artificial intelligence travel",
   "tourism investment", "tourism infrastructure",
   "eco tourism", "responsible tourism",
   "culinary tourism", "food tourism", "gastro tourism"]

/-- `KEYWORDS_MEDIUM_VALUE` (lines 242-251). -/
def KEYWORDS_MEDIUM_VALUE : List String :=
  ["tourism", "travel industry", "hospitality",
   "hotel", "resort", "accommodation",
   "destination", "visitor economy", "inbound tourism",
   "outbound tourism", "travel trend", "booking",
   "airline", "cruise", "tour operator",
   "travel recovery", "tourism growth", "visitor numbers",
   "travel technology", "digital transformation",
   "influencer", "content marketing", "social media travel"]

/-- The clickbait phrase list inlined in `score_article` (line 402).
The phrase "you won't believe" is assembled from characters because of the
embedded apostrophe. -/
def CLICKBAIT_PHRASES : List String :=
  [String.mk (String.toList "you won" ++ [aposChar] ++ String.toList "t believe"),
   "shocking", "amazing trick", "top 10 hack"]

/-- The lowercased `title + " " + summary` text used by both
`classify_geography` (line 347) and `score_article` (line 378). -/
def textOf (a : Article) : List Char :=
  ((a.title ++ " " ++ a.summary).toList).map Char.toLower

/-- Python `kw in text`: `kw` occurs as a contiguous substring of `text`,
i.e. `kw` is a prefix of some suffix of `text`. -/
def containsSub (kw text : List Char) : Bool :=
  (List.range (text.length + 1)).any (fun i => kw.isPrefixOf (text.drop i))

/-- `sum(1 for kw in kws if kw in text)`: the number of keywords of the list
that occur as substrings of `text` (lines 350 and 356). -/
def hitCount (kws : List String) (text : List Char) : Nat :=
  (kws.filter (fun kw => containsSub kw.toList text)).length

/-- `classify_geography` (lines 342-369). -/
def classify_geography (a : Article) : Article :=
  let text := textOf a
  if 1 ≤ hitCount GEO_ROMANIA_KEYWORDS text then { a with geo := "romania" }
  else if 1 ≤ hitCount GEO_EUROPE_KEYWORDS text then { a with geo := "europe" }
  else if a.feed_geo = "romania" then { a with geo := "romania" }
  else if a.feed_geo = "europe" then { a with geo := "europe" }
  else { a with geo := "global" }

/-- The recency bonus block of `score_article` (lines 389-399): evaluated only
when a timestamp is present; `age` is `(datetime.now() - date_obj).days`. -/
def recencyBonus (now : Int) : Option Int → Int
  | none => 0
  | some t =>
    let age := (now - t).fdiv 86400
    if age ≤ 1 then 6 else if age ≤ 3 then 4 else if age ≤ 7 then 2 else 0

/-- `score_article` (lines 372-407).  `now` stands for `datetime.now()`. -/
def score_article (now : Int) (a : Article) : Article :=
  let text := textOf a
  let s1 : Int := KEYWORDS_HIGH_VALUE.foldl
    (fun s kw => if containsSub kw.toList text then s + 4 else s) 0
  let s2 : Int := KEYWORDS_MEDIUM_VALUE.foldl
    (fun s kw => if containsSub kw.toList text then s + 1 else s) s1
  let s3 : Int := s2 + recencyBonus now a.date_obj
  let s4 : Int := CLICKBAIT_PHRASES.foldl
    (fun s cb => if containsSub cb.toList text then s - 5 else s) s3
  { a with score := max s4 0 }

/-- Lowercase ASCII letter or digit: the characters kept by the regex
substitution `re.sub(r"[^a-z0-9]", "", ...)` applied after `.lower()`
(line 415). -/
def isKeyChar (c : Char) : Bool :=
  (97 ≤ c.toNat && c.toNat ≤ 122) || (48 ≤ c.toNat && c.toNat ≤ 57)

/-- The dedup key of a title (line 415): lowercase, drop everything that is
not a lowercase letter or digit, keep the first 50 characters. -/
def dedupKey (title : String) : List Char :=
  (((title.toList).map Char.toLower).filter isKeyChar).take 50

/-- The loop of `deduplicate` (lines 412-418), with the `seen` set made
explicit as a list of keys. -/
def dedupGo (seen : List (List Char)) : List Article → List Article
  | [] => []
  | a :: rest =>
    let key := dedupKey a.title
    if key ∈ seen then dedupGo seen rest
    else a :: dedupGo (key :: seen) rest

/-- `deduplicate` (lines 410-419). -/
def deduplicate (articles : List Article) : List Article :=
  dedupGo [] articles

/-- Modelled from the spec: "keep an article only if its key has not been
seen before in iteration order" — the first-occurrence-per-key filter, stated
as a recursive function for comparison with `deduplicate`. -/
def dedupFirstOcc : List Article → List Article
  | [] => []
  | a :: rest =>
    a :: dedupFirstOcc (rest.filter (fun b => decide (dedupKey b.title ≠ dedupKey a.title)))
termination_by l => l.length
decreasing_by
  exact Nat.lt_succ_of_le (List.length_filter_le _ _)

/-- `bucket.sort(key=lambda x: x["score"], reverse=True)` (lines 436-438,
455): stable sort, descending by score. -/
def sortByScoreDesc (l : List Article) : List Article :=
  l.mergeSort (fun a b => decide (b.score ≤ a.score))

/-- The sorted romania bucket of `balanced_selection` (lines 431, 436). -/
def bucketRo (articles : List Article) : List Article :=
  sortByScoreDesc (articles.filter (fun a => decide (a.geo = "romania")))

/-- The sorted europe bucket (lines 432, 437). -/
def bucketEu (articles : List Article) : List Article :=
  sortByScoreDesc (articles.filter (fun a => decide (a.geo = "europe")))

/-- The sorted global bucket (lines 433, 438). -/
def bucketGl (articles : List Article) : List Article :=
  sortByScoreDesc (articles.filter (fun a => decide (a.geo = "global")))

/-- `picked_ro = romania[:SLOTS_ROMANIA]` (line 443). -/
def pickedRo0 (articles : List Article) : List Article :=
  (bucketRo articles).take SLOTS_ROMANIA

/-- `picked_eu = europe[:SLOTS_EUROPE]` (line 444). -/
def pickedEu0 (articles : List Article) : List Article :=
  (bucketEu articles).take SLOTS_EUROPE

/-- `picked_gl = global_[:SLOTS_GLOBAL]` (line 445). -/
def pickedGl0 (articles : List Article) : List Article :=
  (bucketGl articles).take SLOTS_GLOBAL

/-- `total_picked` (line 448). -/
def totalPicked0 (articles : List Article) : Nat :=
  (pickedRo0 articles).length + (pickedEu0 articles).length + (pickedGl0 articles).length

/-- `remaining_needed = TOTAL_ARTICLES - total_picked` (line 449).  The
Python value is never negative because each slice takes at most 3, so `Nat`
subtraction is faithful. -/
def remainingNeeded (articles : List Article) : Nat :=
  TOTAL_ARTICLES - totalPicked0 articles

/-- `used_ids` (line 453), as a list of ids. -/
def usedIds (articles : List Article) : List String :=
  (pickedRo0 articles ++ pickedEu0 articles ++ pickedGl0 articles).map (fun a => a.id)

/-- `overflow_pool` after its sort (lines 454-455). -/
def overflowPool (articles : List Article) : List Article :=
  sortByScoreDesc (articles.filter (fun a => decide (a.id ∉ usedIds articles)))

/-- `eu_overflow` (line 459). -/
def euOverflow (articles : List Article) : List Article :=
  (overflowPool articles).filter (fun a => decide (a.geo = "europe"))

/-- `gl_overflow` (line 460). -/
def glOverflow (articles : List Article) : List Article :=
  (overflowPool articles).filter (fun a => decide (a.geo = "global"))

/-- `ro_overflow` (line 461). -/
def roOverflow (articles : List Article) : List Article :=
  (overflowPool articles).filter (fun a => decide (a.geo = "romania"))

/-- `overflow_ordered = eu_overflow + gl_overflow + ro_overflow` (line 463). -/
def overflowOrdered (articles : List Article) : List Article :=
  euOverflow articles ++ glOverflow articles ++ roOverflow articles

/-- `extra = overflow_ordered[:remaining_needed]` (line 464). -/
def extraPick (articles : List Article) : List Article :=
  (overflowOrdered articles).take (remainingNeeded articles)

/-- `picked_ro` after the overflow step (lines 451, 467). -/
def pickedRo (articles : List Article) : List Article :=
  if 0 < remainingNeeded articles then
    pickedRo0 articles ++ (extraPick articles).filter (fun a => decide (a.geo = "romania"))
  else pickedRo0 articles

/-- `picked_eu` after the overflow step (lines 451, 465). -/
def pickedEu (articles : List Article) : List Article :=
  if 0 < remainingNeeded articles then
    pickedEu0 articles ++ (extraPick articles).filter (fun a => decide (a.geo = "europe"))
  else pickedEu0 articles

/-- `picked_gl` after the overflow step (lines 451, 466). -/
def pickedGl (articles : List Article) : List Article :=
  if 0 < remainingNeeded articles then
    pickedGl0 articles ++ (extraPick articles).filter (fun a => decide (a.geo = "global"))
  else pickedGl0 articles

/-- The interleaving loop `for i in range(max_len)` (lines 471-479):
iteration `i` emits `xs[i]`, `ys[i]`, `zs[i]`, each only when the index is in
range, which is the same as emitting the heads and recursing on the tails. -/
def roundRobin : Nat → List Article → List Article → List Article → List Article
  | 0, _, _, _ => []
  | n + 1, xs, ys, zs =>
    xs.take 1 ++ ys.take 1 ++ zs.take 1 ++ roundRobin n (xs.drop 1) (ys.drop 1) (zs.drop 1)

/-- `balanced_selection` (lines 422-481). -/
def balanced_selection (articles : List Article) : List Article :=
  let pr := pickedRo articles
  let pe := pickedEu articles
  let pg := pickedGl articles
  (roundRobin (max (max pr.length pe.length) pg.length) pr pe pg).take TOTAL_ARTICLES

/-- Fuel-indexed scan for `stripTags`; the fuel bounds the number of
characters still to be examined, so recursion is structural and the kernel
can evaluate it.  `stripTags` supplies fuel equal to the input length, which
always suffices because every step consumes at least one character. -/
def stripTagsFuel : Nat → List Char → List Char
  | 0, _ => []
  | _, [] => []
  | n + 1, c :: rest =>
    if c = '<' then
      let inner := rest.takeWhile (fun x => decide (x ≠ '>'))
      if inner.isEmpty ∨ ¬ ('>' ∈ rest) then c :: stripTagsFuel n rest
      else stripTagsFuel n ((rest.drop inner.length).drop 1)
    else c :: stripTagsFuel n rest

/-- Removal of markup tags, the regex substitution `re.sub(r"<[^>]+>", "", text)`
in `clean_text` (line 325): a match is a literal `<`, one or more characters
other than `>`, then `>`; on a failed match at a `<` the scan moves on by one
character, as the regex engine does. -/
def stripTags (s : List Char) : List Char :=
  stripTagsFuel s.length s

/-- Replacement of every maximal whitespace run by a single space, the
substitution `re.sub(r"\s+", " ", text)` (lines 326, 337): the flag records
whether the previous character was whitespace, so only the first character
of a run emits the space. -/
def collapseRunsAux : Bool → List Char → List Char
  | _, [] => []
  | prevWs, c :: rest =>
    if c.isWhitespace then
      if prevWs then collapseRunsAux true rest
      else ' ' :: collapseRunsAux true rest
    else c :: collapseRunsAux false rest

/-- `re.sub(r"\s+", " ", text)`: each maximal whitespace run becomes one
space. -/
def collapseRuns (s : List Char) : List Char :=
  collapseRunsAux false s

/-- Python `str.strip()`: remove leading and trailing whitespace. -/
def stripEnds (s : List Char) : List Char :=
  ((s.dropWhile Char.isWhitespace).reverse.dropWhile Char.isWhitespace).reverse

/-- `re.sub(r"\s+", " ", text).strip()` (lines 326 and 337). -/
def collapseWs (s : List Char) : List Char :=
  stripEnds (collapseRuns s)

/-- The anchored substitution `re.sub(r"\[\.{3}\]$", "", text)` (line 327):
remove one trailing `[...]` if present. -/
def stripBracketDots (s : List Char) : List Char :=
  if ("[...]".toList).isSuffixOf s then s.take (s.length - 5) else s

/-- `clean_text` (lines 324-328). -/
def clean_text (s : String) : String :=
  (stripEnds (stripBracketDots (collapseWs (stripTags s.toList)))).asString

/-- `clean_html` (lines 331-339), success path: `getText` abstracts the
external markup extraction (`BeautifulSoup` with script/style/iframe removal
and `get_text(separator=" ")`), whose output is then whitespace-collapsed and
stripped by the `re.sub` on line 337.  The `except` fallback to `clean_text`
is unreachable in the embedding, which has no exceptions. -/
def clean_html (getText : String → String) (html : String) : String :=
  (collapseWs ((getText html).toList)).asString

/-- `summary[:217].rsplit(" ", 1)[0]`: everything before the last space, or
the whole string when it has no space (line 288). -/
def rsplitBefore (s : List Char) : List Char :=
  let r := s.reverse.dropWhile (fun c => decide (c ≠ ' '))
  if r.isEmpty then s else r.tail.reverse

/-- The truncation branch `summary[:217].rsplit(" ", 1)[0] + "..."`
(line 288). -/
def truncate220 (s : List Char) : List Char :=
  rsplitBefore (s.take 217) ++ ("...".toList)

/-- Age of a timestamp in whole days: `(datetime.now() - date_obj).days`,
with Python's flooring division. -/
def ageDays (now t : Int) : Int := (now - t).fdiv 86400

/-- One raw feed entry as `parse_entry` reads it.  A `published_parsed` or
`updated_parsed` field is `some t` when the field is present and
`datetime(*parsed[:6])` succeeds on it (lines 294-302), `none` otherwise. -/
structure RawEntry where
  title : String
  link : String
  summary : String
  published_parsed : Option Int
  updated_parsed : Option Int
deriving DecidableEq

/-- The date-resolution loop of `parse_entry` (lines 292-302): the first of
`published_parsed`, `updated_parsed` that yields a timestamp. -/
def resolvedStamp (e : RawEntry) : Option Int :=
  match e.published_parsed with
  | some t => some t
  | none => e.updated_parsed

/-- The summary computation of `parse_entry` (lines 285-290): clean the raw
summary, truncate past 220 characters at the last space before position 217
with an appended ellipsis, and fall back to the title when empty. -/
def summaryOf (getText : String → String) (title rawSummary : String) : String :=
  let s0 := clean_html getText rawSummary
  let s1 : List Char := if 220 < s0.length then truncate220 s0.toList else s0.toList
  let s2 : List Char := if s1.length = 0 then title.toList else s1
  s2.asString

/-- The article dictionary `parse_entry` builds on acceptance
(lines 308-319). -/
def articleOf (md5short : String → String) (strf : Int → String)
    (getText : String → String) (src fgeo : String) (e : RawEntry) : Article :=
  { id := md5short e.link, title := clean_text e.title,
    summary := summaryOf getText (clean_text e.title) e.summary,
    url := e.link, source := src, feed_geo := fgeo, geo := "",
    date := match resolvedStamp e with | some t => strf t | none => "",
    date_obj := resolvedStamp e, score := 0 }

/-- `parse_entry` (lines 274-321).  Parameters abstract the externals:
`md5short` is `hashlib.md5(url).hexdigest()[:12]`, `strf` is
`strftime("%B %d, %Y")`, `getText` is the markup extraction used by
`clean_html`, `now` is `datetime.now()`; `src`/`fgeo` are the feed
descriptor's `source` and `geo` fields. -/
def parse_entry (md5short : String → String) (strf : Int → String)
    (getText : String → String) (src fgeo : String) (now : Int)
    (e : RawEntry) : Option Article :=
  let title := clean_text e.title
  if title = "" ∨ title.length < 15 then none
  else if e.link = "" then none
  else
    match resolvedStamp e with
    | some t =>
      if MAX_AGE_DAYS < ageDays now t then none
      else some (articleOf md5short strf getText src fgeo e)
    | none => some (articleOf md5short strf getText src fgeo e)

/-! Concrete inputs used by witness and counterexample theorems. -/

/-- Test-fixture builder: an article with the given id, title, summary,
feed hint, geography, timestamp and score; the remaining fields are
irrelevant to the claims exercised on fixtures. -/
def mkA (i t s fg g : String) (d : Option Int) (sc : Int) : Article :=
  { id := i, title := t, summary := s, url := "u", source := "src", feed_geo := fg,
    geo := g, date := "", date_obj := d, score := sc }

/-- An article whose text contains both a Romania keyword and a Europe
keyword. -/
def wArtRo : Article := mkA "1" "Romania and France travel news" "" "global" "" none 0

/-- An article matching no geography keyword, from a feed hinted as europe. -/
def wArtEu : Article := mkA "2" "zzzz qqqq xxxx yyyy" "" "europe" "" none 0

/-- Dedup fixture: first article of a near-duplicate pair (lower score). -/
def dupA : Article := mkA "1" "Hello World Again" "" "" "" none 1

/-- Dedup fixture: second article of the pair, same dedup key, higher
score. -/
def dupB : Article := mkA "2" "hello, world again!!" "" "" "" none 9

/-- The paragraph-8 scenario input: 4 romania articles scored 10, 8, 5, 2;
2 europe articles scored 9, 7; 10 global articles scored from 20 down to 2,
the top four consecutive (20, 19, 18, 17). -/
def scenario16 : List Article :=
  [mkA "r1" "" "" "" "romania" none 10, mkA "r2" "" "" "" "romania" none 8,
   mkA "r3" "" "" "" "romania" none 5,
   mkA "e1" "" "" "" "europe" none 9, mkA "e2" "" "" "" "europe" none 7,
   mkA "g1" "" "" "" "global" none 20, mkA "g2" "" "" "" "global" none 19,
   mkA "g3" "" "" "" "global" none 18, mkA "g4" "" "" "" "global" none 17,
   mkA "g5" "" "" "" "global" none 14, mkA "g6" "" "" "" "global" none 11,
   mkA "g7" "" "" "" "global" none 8, mkA "g8" "" "" "" "global" none 6,
   mkA "g9" "" "" "" "global" none 4, mkA "g10" "" "" "" "global" none 2,
   mkA "r4" "" "" "" "romania" none 2]

/-- A 3/3/3 input: three articles per bucket, distinct scores. -/
def nine333 : List Article :=
  [mkA "r1" "" "" "" "romania" none 9, mkA "r2" "" "" "" "romania" none 8,
   mkA "r3" "" "" "" "romania" none 7,
   mkA "e1" "" "" "" "europe" none 6, mkA "e2" "" "" "" "europe" none 5,
   mkA "e3" "" "" "" "europe" none 4,
   mkA "g1" "" "" "" "global" none 3, mkA "g2" "" "" "" "global" none 2,
   mkA "g3" "" "" "" "global" none 1]

/-- Bucket sizes 1 romania / 4 europe / 4 global: exercises the overflow
step with the europe overflow holding a single article. -/
def ex144 : List Article :=
  [mkA "r1" "" "" "" "romania" none 10,
   mkA "e1" "" "" "" "europe" none 9, mkA "e2" "" "" "" "europe" none 8,
   mkA "e3" "" "" "" "europe" none 7, mkA "e4" "" "" "" "europe" none 6,
   mkA "ga" "" "" "" "global" none 5, mkA "gb" "" "" "" "global" none 4,
   mkA "gc" "" "" "" "global" none 3, mkA "gd" "" "" "" "global" none 2]

/-- Bucket sizes 1 romania / 5 europe / 4 global. -/
def ex154 : List Article :=
  [mkA "r1" "" "" "" "romania" none 10,
   mkA "e1" "" "" "" "europe" none 9, mkA "e2" "" "" "" "europe" none 8,
   mkA "e3" "" "" "" "europe" none 7, mkA "e4" "" "" "" "europe" none 6,
   mkA "e5" "" "" "" "europe" none 5,
   mkA "ga" "" "" "" "global" none 4, mkA "gb" "" "" "" "global" none 3,
   mkA "gc" "" "" "" "global" none 2, mkA "gd" "" "" "" "global" none 1]

/-- A raw entry whose cleaned summary is 221 characters with no space. -/
def entryNoSpace : RawEntry :=
  { title := String.mk (List.replicate 16 'a'), link := "x",
    summary := String.mk (List.replicate 221 'b'),
    published_parsed := none, updated_parsed := none }

/-- The article `parse_entry` produces from `entryNoSpace` (with identity
text extraction, a constant hash and an age reference of 0). -/
def outNoSpace : Article :=
  { id := "h", title := String.mk (List.replicate 16 'a'),
    summary := String.mk (List.replicate 217 'b' ++ "...".toList),
    url := "x", source := "src", feed_geo := "global", geo := "",
    date := "", date_obj := none, score := 0 }

/-- A raw entry whose cleaned summary is 45 repetitions of "word "
(225 characters once cleaned, 224 after the trailing strip). -/
def entrySpaced : RawEntry :=
  { title := String.mk (List.replicate 16 'a'), link := "x",
    summary := String.mk ((List.replicate 45 ("word ".toList)).flatten),
    published_parsed := none, updated_parsed := none }

/-- A raw entry with an overlong title and an empty summary, so the title
becomes the summary. -/
def entryLongTitle : RawEntry :=
  { title := String.mk (List.replicate 221 'a'), link := "x", summary := "",
    published_parsed := none, updated_parsed := none }

/-- The article `parse_entry` produces from `entrySpaced`: 42 full "word "
groups, a final "word", then the ellipsis. -/
def outSpaced : Article :=
  { id := "h", title := String.mk (List.replicate 16 'a'),
    summary := String.mk ((List.replicate 42 ("word ".toList)).flatten ++ "word...".toList),
    url := "x", source := "src", feed_geo := "global", geo := "",
    date := "", date_obj := none, score := 0 }

/-- The article `parse_entry` produces from `entryLongTitle`: the 221-char
title doubles as the summary. -/
def outLongTitle : Article :=
  { id := "h", title := String.mk (List.replicate 221 'a'),
    summary := String.mk (List.replicate 221 'a'),
    url := "x", source := "src", feed_geo := "global", geo := "",
    date := "", date_obj := none, score := 0 }

/-! ### Helper lemmas -/

theorem hitCount_pos_iff (kws : List String) (text : List Char) :
    1 ≤ hitCount kws text ↔ ∃ kw ∈ kws, containsSub kw.toList text = true := by
  unfold hitCount
  rw [Nat.one_le_iff_ne_zero, Ne, List.length_eq_zero, List.filter_eq_nil_iff]
  push_neg
  simp

theorem hitCount_cons (k : String) (ks : List String) (t : List Char) :
    hitCount (k :: ks) t
      = (if containsSub k.toList t then 1 else 0) + hitCount ks t := by
  unfold hitCount
  rw [List.filter_cons]
  by_cases h : containsSub k.toList t
  · rw [if_pos h, if_pos h, List.length_cons]
    omega
  · rw [if_neg h, if_neg h]
    omega

theorem foldl_add_count (t : List Char) (c : Int) (kws : List String) :
    ∀ init : Int,
      kws.foldl (fun s kw => if containsSub kw.toList t then s + c else s) init
        = init + c * (hitCount kws t : Int) := by
  induction kws with
  | nil => intro init; simp [hitCount]
  | cons k ks ih =>
    intro init
    rw [List.foldl_cons, hitCount_cons]
    by_cases h : containsSub k.toList t
    · rw [if_pos h, if_pos h, ih]
      push_cast
      ring
    · rw [if_neg h, if_neg h, ih]
      push_cast
      ring

theorem foldl_sub_count (t : List Char) (kws : List String) :
    ∀ init : Int,
      kws.foldl (fun s kw => if containsSub kw.toList t then s - 5 else s) init
        = init - 5 * (hitCount kws t : Int) := by
  induction kws with
  | nil => intro init; simp [hitCount]
  | cons k ks ih =>
    intro init
    rw [List.foldl_cons, hitCount_cons]
    by_cases h : containsSub k.toList t
    · rw [if_pos h, if_pos h, ih]
      push_cast
      ring
    · rw [if_neg h, if_neg h, ih]
      push_cast
      ring

theorem dedupGo_sublist (l : List Article) : ∀ seen, (dedupGo seen l).Sublist l := by
  induction l with
  | nil => intro seen; simp [dedupGo]
  | cons a t ih =>
    intro seen
    simp only [dedupGo]
    split
    · exact (ih seen).cons a
    · exact (ih _).cons₂ a

theorem dedupGo_eq_firstOcc (l : List Article) :
    ∀ seen, dedupGo seen l
      = dedupFirstOcc (l.filter (fun a => decide (dedupKey a.title ∉ seen))) := by
  induction l with
  | nil => intro seen; simp [dedupGo, dedupFirstOcc]
  | cons a t ih =>
    intro seen
    by_cases h : dedupKey a.title ∈ seen
    · rw [show dedupGo seen (a :: t) = dedupGo seen t from by simp [dedupGo, h]]
      rw [ih seen]
      congr 1
      simp [List.filter_cons, h]
    · have h1 : dedupGo seen (a :: t) = a :: dedupGo (dedupKey a.title :: seen) t := by
        simp [dedupGo, h]
      have h2 : (a :: t).filter (fun b => decide (dedupKey b.title ∉ seen))
          = a :: t.filter (fun b => decide (dedupKey b.title ∉ seen)) := by
        simp [List.filter_cons, h]
      have h3 : (t.filter (fun b => decide (dedupKey b.title ∉ seen))).filter
            (fun b => decide (dedupKey b.title ≠ dedupKey a.title))
          = t.filter (fun b => decide (dedupKey b.title ∉ dedupKey a.title :: seen)) := by
        rw [List.filter_filter]
        apply List.filter_congr
        intro b _
        by_cases hb1 : dedupKey b.title = dedupKey a.title <;>
          by_cases hb2 : dedupKey b.title ∈ seen <;> simp [hb1, hb2]
      rw [h1, h2, ih, dedupFirstOcc, h3]

theorem deduplicate_eq_firstOcc (l : List Article) :
    deduplicate l = dedupFirstOcc l := by
  rw [deduplicate, dedupGo_eq_firstOcc]
  congr 1
  rw [List.filter_eq_self]
  simp

/-! ### Claim theorems: classification, scoring, dedup, frame -/

/-- C4: `classify_geography` follows the priority order romania keywords,
europe keywords, feed hint (romania or europe), global; in particular a text
with keywords of both lists is classified romania, and a keyword-free
article from a europe-hinted feed is classified europe. -/
theorem classify_geography_spec (a : Article) :
    ((∃ kw ∈ GEO_ROMANIA_KEYWORDS, containsSub kw.toList (textOf a) = true) →
        (classify_geography a).geo = "romania") ∧
    ((¬ ∃ kw ∈ GEO_ROMANIA_KEYWORDS, containsSub kw.toList (textOf a) = true) →
      (∃ kw ∈ GEO_EUROPE_KEYWORDS, containsSub kw.toList (textOf a) = true) →
        (classify_geography a).geo = "europe") ∧
    ((¬ ∃ kw ∈ GEO_ROMANIA_KEYWORDS, containsSub kw.toList (textOf a) = true) →
      (¬ ∃ kw ∈ GEO_EUROPE_KEYWORDS, containsSub kw.toList (textOf a) = true) →
      a.feed_geo = "romania" → (classify_geography a).geo = "romania") ∧
    ((¬ ∃ kw ∈ GEO_ROMANIA_KEYWORDS, containsSub kw.toList (textOf a) = true) →
      (¬ ∃ kw ∈ GEO_EUROPE_KEYWORDS, containsSub kw.toList (textOf a) = true) →
      a.feed_geo = "europe" → (classify_geography a).geo = "europe") ∧
    ((¬ ∃ kw ∈ GEO_ROMANIA_KEYWORDS, containsSub kw.toList (textOf a) = true) →
      (¬ ∃ kw ∈ GEO_EUROPE_KEYWORDS, containsSub kw.toList (textOf a) = true) →
      a.feed_geo ≠ "romania" → a.feed_geo ≠ "europe" →
        (classify_geography a).geo = "global") ∧
    ((∃ kw ∈ GEO_ROMANIA_KEYWORDS, containsSub kw.toList (textOf a) = true) →
      (∃ kw ∈ GEO_EUROPE_KEYWORDS, containsSub kw.toList (textOf a) = true) →
        (classify_geography a).geo = "romania") := by
  have hro := hitCount_pos_iff GEO_ROMANIA_KEYWORDS (textOf a)
  have heu := hitCount_pos_iff GEO_EUROPE_KEYWORDS (textOf a)
  simp only [classify_geography]
  refine ⟨?_, ?_, ?_, ?_, ?_, ?_⟩
  · intro h
    rw [if_pos (hro.2 h)]
  · intro h1 h2
    rw [if_neg (fun hle => h1 (hro.1 hle)), if_pos (heu.2 h2)]
  · intro h1 h2 h3
    rw [if_neg (fun hle => h1 (hro.1 hle)), if_neg (fun hle => h2 (heu.1 hle)), if_pos h3]
  · intro h1 h2 h3
    rw [if_neg (fun hle => h1 (hro.1 hle)), if_neg (fun hle => h2 (heu.1 hle)),
      if_neg (fun hr => absurd (h3 ▸ hr) (by decide)), if_pos h3]
  · intro h1 h2 h3 h4
    rw [if_neg (fun hle => h1 (hro.1 hle)), if_neg (fun hle => h2 (heu.1 hle)),
      if_neg h3, if_neg h4]
  · intro h _
    rw [if_pos (hro.2 h)]

/-- C4 witness: an article whose text holds both a romania and a europe
keyword is classified romania, and a keyword-free article with europe feed
hint is classified europe. -/
theorem classify_geography_spec_witness :
    (classify_geography wArtRo).geo = "romania" ∧
    (classify_geography wArtEu).geo = "europe" :=
  ⟨(classify_geography_spec wArtRo).1
      ⟨"romania", by decide, by decide⟩,
   (classify_geography_spec wArtEu).2.2.2.1
      (by decide) (by decide) rfl⟩

/-- C5: the score is the clamp to zero of 4 per matched high-value keyword
plus 1 per matched medium-value keyword plus the recency bonus (only when a
timestamp is present) minus 5 per matched clickbait phrase; it is never
negative. -/
theorem score_article_spec (now : Int) (a : Article) :
    (score_article now a).score =
      max (4 * (hitCount KEYWORDS_HIGH_VALUE (textOf a) : Int)
           + 1 * (hitCount KEYWORDS_MEDIUM_VALUE (textOf a) : Int)
           + recencyBonus now a.date_obj
           - 5 * (hitCount CLICKBAIT_PHRASES (textOf a) : Int)) 0 ∧
    0 ≤ (score_article now a).score := by
  constructor
  · simp only [score_article]
    rw [foldl_add_count, foldl_add_count, foldl_sub_count]
    congr 1
    ring
  · simp only [score_article]
    exact le_max_right _ _

/-- C6: `deduplicate` keeps exactly the first occurrence of each dedup key
in input order (it equals the first-occurrence filter and is a sublist of
the input), and of two same-key articles A before B only A survives,
whatever the scores. -/
theorem deduplicate_spec (l : List Article) (A B : Article)
    (hk : dedupKey A.title = dedupKey B.title) :
    deduplicate l = dedupFirstOcc l ∧ (deduplicate l).Sublist l ∧
    deduplicate [A, B] = [A] := by
  refine ⟨deduplicate_eq_firstOcc l, dedupGo_sublist l [], ?_⟩
  simp [deduplicate, dedupGo, hk]

/-- C6 witness: the concrete near-duplicate pair keeps the first, lower
scored article. -/
theorem deduplicate_spec_witness :
    dedupKey dupA.title = dedupKey dupB.title ∧ dupA.score < dupB.score ∧
    deduplicate [dupA, dupB] = [dupA] :=
  ⟨by decide, by decide, (deduplicate_spec [dupA] dupA dupB (by decide)).2.2⟩

/-- C10: `classify_geography` only writes `geo` and `score_article` only
writes `score`; every other field of the article is returned unchanged. -/
theorem classify_score_frame (a : Article) (now : Int) :
    ((classify_geography a).id = a.id ∧ (classify_geography a).title = a.title ∧
     (classify_geography a).summary = a.summary ∧ (classify_geography a).url = a.url ∧
     (classify_geography a).source = a.source ∧
     (classify_geography a).feed_geo = a.feed_geo ∧
     (classify_geography a).date = a.date ∧
     (classify_geography a).date_obj = a.date_obj ∧
     (classify_geography a).score = a.score) ∧
    ((score_article now a).id = a.id ∧ (score_article now a).title = a.title ∧
     (score_article now a).summary = a.summary ∧ (score_article now a).url = a.url ∧
     (score_article now a).source = a.source ∧
     (score_article now a).feed_geo = a.feed_geo ∧
     (score_article now a).geo = a.geo ∧ (score_article now a).date = a.date ∧
     (score_article now a).date_obj = a.date_obj) := by
  have hshape : ∃ g, classify_geography a = { a with geo := g } := by
    simp only [classify_geography]
    split
    · exact ⟨_, rfl⟩
    split
    · exact ⟨_, rfl⟩
    split
    · exact ⟨_, rfl⟩
    split
    · exact ⟨_, rfl⟩
    · exact ⟨_, rfl⟩
  obtain ⟨g, hg⟩ := hshape
  rw [hg]
  exact ⟨⟨rfl, rfl, rfl, rfl, rfl, rfl, rfl, rfl, rfl⟩,
         ⟨rfl, rfl, rfl, rfl, rfl, rfl, rfl, rfl, rfl⟩⟩

set_option maxRecDepth 40000

/-! ### Entry-normaliser lemmas -/

theorem toList_asString (l : List Char) : (l.asString).toList = l := rfl

theorem length_asString (l : List Char) : (l.asString).length = l.length := rfl

theorem parse_entry_some (md5short : String → String) (strf : Int → String)
    (getText : String → String) (src fgeo : String) (now : Int) (e : RawEntry)
    (art : Article)
    (h : parse_entry md5short strf getText src fgeo now e = some art) :
    art = articleOf md5short strf getText src fgeo e := by
  simp only [parse_entry] at h
  split at h
  · exact Option.noConfusion h
  split at h
  · exact Option.noConfusion h
  split at h
  · rename_i t heq
    split at h
    · exact Option.noConfusion h
    · exact (Option.some.inj h).symm
  · exact (Option.some.inj h).symm

theorem dropWhile_append_all {p : Char → Bool} :
    ∀ l1 l2 : List Char, (∀ x ∈ l1, p x = true) →
      (l1 ++ l2).dropWhile p = l2.dropWhile p := by
  intro l1
  induction l1 with
  | nil => intro l2 _; rfl
  | cons c cs ih =>
    intro l2 hall
    rw [List.cons_append, List.dropWhile_cons, if_pos (hall c (List.mem_cons_self c cs))]
    exact ih l2 (fun x hx => hall x (List.mem_cons_of_mem c hx))

theorem rsplitBefore_last_space {t u : List Char} (hu : ' ' ∉ u) :
    rsplitBefore (t ++ ' ' :: u) = t := by
  simp only [rsplitBefore]
  have h1 : (t ++ ' ' :: u).reverse = u.reverse ++ ' ' :: t.reverse := by
    rw [List.reverse_append, List.reverse_cons, List.append_assoc]
    rfl
  have h2 : (t ++ ' ' :: u).reverse.dropWhile (fun c => decide (c ≠ ' '))
      = ' ' :: t.reverse := by
    rw [h1, dropWhile_append_all _ _ ?hall, List.dropWhile_cons,
      if_neg (by decide : ¬ (decide (' ' ≠ ' ') = true))]
    case hall =>
      intro x hx
      exact decide_eq_true (fun he => hu (he ▸ List.mem_reverse.mp hx))
  rw [h2]
  simp

theorem exists_last_space_split {l : List Char} (h : ' ' ∈ l) :
    ∃ t u, l = t ++ ' ' :: u ∧ ' ' ∉ u := by
  induction l with
  | nil => cases h
  | cons c cs ih =>
    by_cases hc : ' ' ∈ cs
    · obtain ⟨t, u, heq, hu⟩ := ih hc
      exact ⟨c :: t, u, by rw [heq]; rfl, hu⟩
    · have hc2 : c = ' ' := by
        rcases List.mem_cons.mp h with h1 | h2
        · exact h1.symm
        · exact absurd h2 hc
      exact ⟨[], cs, by rw [hc2]; rfl, hc⟩

theorem rsplitBefore_length_le (s : List Char) :
    (rsplitBefore s).length ≤ s.length := by
  simp only [rsplitBefore]
  split
  · exact le_rfl
  · have h1 : (s.reverse.dropWhile (fun c => decide (c ≠ ' '))).length ≤ s.length := by
      have h0 : (s.reverse.dropWhile (fun c => decide (c ≠ ' '))).Sublist s.reverse :=
        List.dropWhile_sublist _
      have h2 := h0.length_le
      simpa using h2
    simp only [List.length_reverse, List.length_tail]
    omega

theorem truncate220_len (s : List Char) : (truncate220 s).length ≤ 220 := by
  unfold truncate220
  rw [List.length_append]
  have h1 : (rsplitBefore (s.take 217)).length ≤ 217 := by
    have h2 := rsplitBefore_length_le (s.take 217)
    have h3 : (s.take 217).length ≤ 217 := by
      rw [List.length_take]; omega
    omega
  have h4 : ("...".toList).length = 3 := rfl
  omega

theorem truncate220_ne_nil (s : List Char) : ¬ (truncate220 s).length = 0 := by
  unfold truncate220
  rw [List.length_append]
  have h4 : ("...".toList).length = 3 := rfl
  omega

/-- C9: `parse_entry` yields no article (an `Option.none` result, never an
error) exactly when the cleaned title is empty or shorter than 15
characters, the link is empty, or a timestamp resolved and its age exceeds
14 days; an entry with no resolvable timestamp is never rejected for age. -/
theorem parse_entry_rejects_iff (md5short : String → String) (strf : Int → String)
    (getText : String → String) (src fgeo : String) (now : Int) (e : RawEntry) :
    parse_entry md5short strf getText src fgeo now e = none ↔
      (clean_text e.title = "" ∨ (clean_text e.title).length < 15 ∨ e.link = "" ∨
        ∃ t, resolvedStamp e = some t ∧ MAX_AGE_DAYS < ageDays now t) := by
  simp only [parse_entry]
  by_cases h1 : clean_text e.title = "" ∨ (clean_text e.title).length < 15
  · rw [if_pos h1]
    rcases h1 with h1 | h1 <;> simp [h1]
  · rw [if_neg h1]
    push_neg at h1
    by_cases h2 : e.link = ""
    · rw [if_pos h2]
      simp [h2]
    · rw [if_neg h2]
      cases hr : resolvedStamp e with
      | none => simp [hr, h1.1, h1.2, h2]
      | some t =>
        by_cases h3 : MAX_AGE_DAYS < ageDays now t
        · simp [h3]
        · simp [h3, h1.1, h1.2, h2]

/-- C7 counterexample: an accepted entry whose cleaned summary is 221
characters containing no space is truncated to its first 217 characters plus
the ellipsis — there is no whitespace boundary at which the cut could have
happened, so the summary ends mid-word. -/
theorem truncation_midword_cx :
    parse_entry (fun _ => "h") (fun _ => "") (fun s => s) "src" "global" 0 entryNoSpace
        = some outNoSpace ∧
    220 < (clean_html (fun s => s) entryNoSpace.summary).length ∧
    outNoSpace.summary.toList = List.replicate 217 'b' ++ "...".toList ∧
    ¬ ∃ t u, (clean_html (fun s => s) entryNoSpace.summary).toList.take 217
          = t ++ ' ' :: u ∧ outNoSpace.summary.toList = t ++ "...".toList := by
  refine ⟨by decide, by decide, by decide, ?_⟩
  rintro ⟨t, u, heq, -⟩
  have hsp : ' ' ∈ (clean_html (fun s => s) entryNoSpace.summary).toList.take 217 := by
    rw [heq]
    exact List.mem_append_right _ (List.mem_cons_self _ _)
  have hmem : ' ' ∈ (clean_html (fun s => s) entryNoSpace.summary).toList :=
    (List.take_sublist 217 _).subset hsp
  exact absurd hmem (by decide)

/-- C7 amended: when an accepted entry's cleaned summary exceeds 220
characters AND its first 217 characters contain at least one space, the
stored summary is the prefix up to the last such space followed by the
ellipsis marker — it never ends mid-word.  (Without a space in the first 217
characters the code keeps all 217 characters and may cut mid-word.) -/
theorem truncation_at_last_space (md5short : String → String) (strf : Int → String)
    (getText : String → String) (src fgeo : String) (now : Int) (e : RawEntry)
    (art : Article)
    (hsome : parse_entry md5short strf getText src fgeo now e = some art)
    (hlen : 220 < (clean_html getText e.summary).length)
    (hsp : ' ' ∈ (clean_html getText e.summary).toList.take 217) :
    ∃ t u, (clean_html getText e.summary).toList.take 217 = t ++ ' ' :: u ∧ ' ' ∉ u ∧
      art.summary.toList = t ++ "...".toList := by
  have hart := parse_entry_some md5short strf getText src fgeo now e art hsome
  obtain ⟨t, u, heq, hu⟩ := exists_last_space_split hsp
  refine ⟨t, u, heq, hu, ?_⟩
  rw [hart]
  show (summaryOf getText (clean_text e.title) e.summary).toList = _
  simp only [summaryOf]
  rw [if_pos hlen, if_neg (truncate220_ne_nil _), toList_asString]
  unfold truncate220
  rw [heq, rsplitBefore_last_space hu]

/-- C7 witness: on the spaced 225-character fixture, the summary is cut at
the last space before position 217 and ends with the ellipsis. -/
theorem truncation_at_last_space_witness :
    ∃ t u, (clean_html (fun s => s) entrySpaced.summary).toList.take 217
        = t ++ ' ' :: u ∧ ' ' ∉ u ∧
      outSpaced.summary.toList = t ++ "...".toList :=
  truncation_at_last_space (fun _ => "h") (fun _ => "") (fun s => s) "src" "global" 0
    entrySpaced outSpaced (by decide) (by decide) (by decide)

/-- C8 counterexample: an accepted entry with a 221-character title and an
empty summary stores the title as the summary, which exceeds 220
characters. -/
theorem summary_cap_cx :
    parse_entry (fun _ => "h") (fun _ => "") (fun s => s) "src" "global" 0 entryLongTitle
        = some outLongTitle ∧
    220 < outLongTitle.summary.length :=
  ⟨by decide, by decide⟩

/-- C8 amended: every accepted article's summary is at most 220 characters
whenever the cleaned raw summary is nonempty; in general it is either at
most 220 characters or (when the cleaned summary was empty) literally the
article's title, whose length is unbounded. -/
theorem summary_cap_amended (md5short : String → String) (strf : Int → String)
    (getText : String → String) (src fgeo : String) (now : Int) (e : RawEntry)
    (art : Article)
    (hsome : parse_entry md5short strf getText src fgeo now e = some art) :
    (clean_html getText e.summary ≠ "" → art.summary.length ≤ 220) ∧
    (art.summary.length ≤ 220 ∨ art.summary = art.title) := by
  have hart := parse_entry_some md5short strf getText src fgeo now e art hsome
  rw [hart]
  show (clean_html getText e.summary ≠ "" →
      (summaryOf getText (clean_text e.title) e.summary).length ≤ 220) ∧ _
  simp only [articleOf, summaryOf]
  by_cases hlen : 220 < (clean_html getText e.summary).length
  · rw [if_pos hlen, if_neg (truncate220_ne_nil _)]
    have hb := truncate220_len (clean_html getText e.summary).toList
    rw [length_asString]
    exact ⟨fun _ => hb, Or.inl hb⟩
  · rw [if_neg hlen]
    by_cases h0 : (clean_html getText e.summary).toList.length = 0
    · rw [if_pos h0]
      have hemp : clean_html getText e.summary = "" := by
        have : (clean_html getText e.summary).toList = [] := List.length_eq_zero.mp h0
        cases hs : clean_html getText e.summary
        rw [hs] at this
        simp only [String.toList] at this
        rw [this]
      constructor
      · intro hne
        exact absurd hemp hne
      · right
        rfl
    · rw [if_neg h0]
      rw [length_asString]
      have : (clean_html getText e.summary).toList.length
          = (clean_html getText e.summary).length := rfl
      constructor
      · intro _; omega
      · left; omega

/-- C8 witness for the amended statement: on the long-title fixture the
summary equals the title. -/
theorem summary_cap_amended_witness :
    outLongTitle.summary.length ≤ 220 ∨ outLongTitle.summary = outLongTitle.title :=
  (summary_cap_amended (fun _ => "h") (fun _ => "") (fun s => s) "src" "global" 0
    entryLongTitle outLongTitle (by decide)).2

/-! ### Balanced-selection lemmas -/

theorem roundRobin_length :
    ∀ (n : Nat) (xs ys zs : List Article),
      xs.length ≤ n → ys.length ≤ n → zs.length ≤ n →
      (roundRobin n xs ys zs).length = xs.length + ys.length + zs.length := by
  intro n
  induction n with
  | zero =>
    intro xs ys zs hx hy hz
    simp only [roundRobin, List.length_nil]
    omega
  | succ n ih =>
    intro xs ys zs hx hy hz
    simp only [roundRobin, List.length_append]
    rw [ih (xs.drop 1) (ys.drop 1) (zs.drop 1)
      (by simp only [List.length_drop]; omega)
      (by simp only [List.length_drop]; omega)
      (by simp only [List.length_drop]; omega)]
    simp only [List.length_take, List.length_drop]
    omega

theorem perm_insert_mid {α : Type} (a : α) {t l₁ l₂ l₃ : List α}
    (h : t.Perm (l₁ ++ l₂ ++ l₃)) : (a :: t).Perm (l₁ ++ (a :: l₂) ++ l₃) := by
  have h2 : l₁ ++ (a :: l₂) ++ l₃ = l₁ ++ a :: (l₂ ++ l₃) := by
    rw [List.append_assoc]
    rfl
  rw [h2]
  refine (h.cons a).trans ?_
  have h3 : l₁ ++ l₂ ++ l₃ = l₁ ++ (l₂ ++ l₃) := List.append_assoc l₁ l₂ l₃
  rw [h3]
  exact List.perm_middle.symm

theorem perm_insert_last {α : Type} (a : α) {t l₁ l₂ l₃ : List α}
    (h : t.Perm (l₁ ++ l₂ ++ l₃)) : (a :: t).Perm (l₁ ++ l₂ ++ (a :: l₃)) :=
  (h.cons a).trans List.perm_middle.symm

theorem partition3_perm :
    ∀ l : List Article,
      (∀ a ∈ l, a.geo = "romania" ∨ a.geo = "europe" ∨ a.geo = "global") →
      l.Perm (l.filter (fun a => decide (a.geo = "romania"))
        ++ l.filter (fun a => decide (a.geo = "europe"))
        ++ l.filter (fun a => decide (a.geo = "global"))) := by
  intro l
  induction l with
  | nil => intro _; simp
  | cons a t ih =>
    intro hgeo
    have ht := ih (fun b hb => hgeo b (List.mem_cons_of_mem a hb))
    rcases hgeo a (List.mem_cons_self a t) with ha | ha | ha
    · rw [List.filter_cons_of_pos (by rw [ha]; decide),
        List.filter_cons_of_neg (by rw [ha]; decide),
        List.filter_cons_of_neg (by rw [ha]; decide)]
      exact ht.cons a
    · rw [List.filter_cons_of_neg (by rw [ha]; decide),
        List.filter_cons_of_pos (by rw [ha]; decide),
        List.filter_cons_of_neg (by rw [ha]; decide)]
      exact perm_insert_mid a ht
    · rw [List.filter_cons_of_neg (by rw [ha]; decide),
        List.filter_cons_of_neg (by rw [ha]; decide),
        List.filter_cons_of_pos (by rw [ha]; decide)]
      exact perm_insert_last a ht

theorem partition3_length (l : List Article)
    (hgeo : ∀ a ∈ l, a.geo = "romania" ∨ a.geo = "europe" ∨ a.geo = "global") :
    (l.filter (fun a => decide (a.geo = "romania"))).length
      + (l.filter (fun a => decide (a.geo = "europe"))).length
      + (l.filter (fun a => decide (a.geo = "global"))).length = l.length := by
  have h := (partition3_perm l hgeo).length_eq
  simp only [List.length_append] at h
  omega

theorem subperm_map {α β : Type} (f : α → β) {l₁ l₂ : List α} (h : l₁.Subperm l₂) :
    (l₁.map f).Subperm (l₂.map f) := by
  obtain ⟨w, hp, hs⟩ := h
  exact ⟨w.map f, hp.map f, hs.map f⟩

theorem subperm_nodup {α : Type} {l₁ l₂ : List α} (h : l₁.Subperm l₂)
    (hn : l₂.Nodup) : l₁.Nodup := by
  obtain ⟨w, hp, hs⟩ := h
  exact (hs.nodup hn).perm hp

theorem length_filter_id_not_mem :
    ∀ (l : List Article) (S : List String),
      (l.map (fun a => a.id)).Nodup → S.Nodup →
      (∀ s ∈ S, s ∈ l.map (fun a => a.id)) →
      (l.filter (fun a => decide (a.id ∉ S))).length = l.length - S.length := by
  intro l
  induction l with
  | nil =>
    intro S _ _ hsub
    have hS : S = [] := by
      cases S with
      | nil => rfl
      | cons s ss => exact absurd (hsub s (List.mem_cons_self s ss)) (by simp)
    simp [hS]
  | cons a t ih =>
    intro S hnd hS hsub
    rw [List.map_cons, List.nodup_cons] at hnd
    obtain ⟨ha_nin, hnd_t⟩ := hnd
    by_cases hmem : a.id ∈ S
    · rw [List.filter_cons_of_neg (by simp [hmem])]
      have hS' : (S.erase a.id).Nodup := hS.erase _
      have hsub' : ∀ s ∈ S.erase a.id, s ∈ t.map (fun a => a.id) := by
        intro s hs
        have hs_mem : s ∈ S := List.mem_of_mem_erase hs
        have hs_ne : s ≠ a.id := fun h => hS.not_mem_erase (h ▸ hs)
        rcases List.mem_cons.mp (hsub s hs_mem) with h | h
        · exact absurd h hs_ne
        · exact h
      have hfe : t.filter (fun b => decide (b.id ∉ S))
          = t.filter (fun b => decide (b.id ∉ S.erase a.id)) := by
        apply List.filter_congr
        intro b hb
        have hbne : b.id ≠ a.id :=
          fun h => ha_nin (h ▸ List.mem_map_of_mem (fun a => a.id) hb)
        have hiff : b.id ∈ S.erase a.id ↔ b.id ∈ S := List.mem_erase_of_ne hbne
        by_cases hbm : b.id ∈ S
        · simp [hbm, hiff.mpr hbm]
        · have h2 : b.id ∉ S.erase a.id := fun hc => hbm (hiff.mp hc)
          simp [hbm, h2]
      rw [hfe, ih (S.erase a.id) hnd_t hS' hsub']
      have hlen : (S.erase a.id).length = S.length - 1 := List.length_erase_of_mem hmem
      have hle : (S.erase a.id).length ≤ t.length := by
        have h2 := (List.subperm_of_subset hS' hsub').length_le
        simpa using h2
      have hpos : 0 < S.length := List.length_pos_of_mem hmem
      simp only [List.length_cons]
      omega
    · rw [List.filter_cons_of_pos (by simp [hmem])]
      have hsub' : ∀ s ∈ S, s ∈ t.map (fun a => a.id) := by
        intro s hs
        rcases List.mem_cons.mp (hsub s hs) with h | h
        · subst h
          exact absurd hs hmem
        · exact h
      have hle : S.length ≤ t.length := by
        have h2 := (List.subperm_of_subset hS hsub').length_le
        simpa using h2
      simp only [List.length_cons]
      rw [ih S hnd_t hS hsub']
      omega

theorem picked0_subperm (articles : List Article)
    (hgeo : ∀ a ∈ articles, a.geo = "romania" ∨ a.geo = "europe" ∨ a.geo = "global") :
    (pickedRo0 articles ++ pickedEu0 articles ++ pickedGl0 articles).Subperm articles := by
  have hperm := partition3_perm articles hgeo
  have hsl : (pickedRo0 articles ++ pickedEu0 articles ++ pickedGl0 articles).Sublist
      (bucketRo articles ++ bucketEu articles ++ bucketGl articles) :=
    ((List.take_sublist _ _).append (List.take_sublist _ _)).append (List.take_sublist _ _)
  have hperm2 : (bucketRo articles ++ bucketEu articles ++ bucketGl articles).Perm
      (articles.filter (fun a => decide (a.geo = "romania"))
        ++ articles.filter (fun a => decide (a.geo = "europe"))
        ++ articles.filter (fun a => decide (a.geo = "global"))) :=
    ((List.mergeSort_perm _ _).append (List.mergeSort_perm _ _)).append
      (List.mergeSort_perm _ _)
  exact hsl.subperm.trans (hperm2.trans hperm.symm).subperm

theorem usedIds_spec (articles : List Article)
    (hids : (articles.map (fun a => a.id)).Nodup)
    (hgeo : ∀ a ∈ articles, a.geo = "romania" ∨ a.geo = "europe" ∨ a.geo = "global") :
    (usedIds articles).Nodup ∧
    (∀ s ∈ usedIds articles, s ∈ articles.map (fun a => a.id)) ∧
    (usedIds articles).length = totalPicked0 articles := by
  have hsp := subperm_map (fun a => a.id) (picked0_subperm articles hgeo)
  rw [List.map_append, List.map_append] at hsp
  constructor
  · have := subperm_nodup hsp hids
    simpa [usedIds, List.map_append] using this
  constructor
  · intro s hs
    apply hsp.subset
    simpa [usedIds, List.map_append] using hs
  · simp only [usedIds, totalPicked0, List.map_append, List.length_append,
      List.length_map]

theorem overflowPool_length (articles : List Article)
    (hids : (articles.map (fun a => a.id)).Nodup)
    (hgeo : ∀ a ∈ articles, a.geo = "romania" ∨ a.geo = "europe" ∨ a.geo = "global") :
    (overflowPool articles).length = articles.length - totalPicked0 articles := by
  obtain ⟨h1, h2, h3⟩ := usedIds_spec articles hids hgeo
  unfold overflowPool sortByScoreDesc
  rw [List.length_mergeSort,
    length_filter_id_not_mem articles (usedIds articles) hids h1 h2, h3]

theorem pickedRo0_length (articles : List Article) :
    (pickedRo0 articles).length
      = min SLOTS_ROMANIA (articles.filter (fun a => decide (a.geo = "romania"))).length := by
  unfold pickedRo0 bucketRo sortByScoreDesc
  rw [List.length_take, List.length_mergeSort]

theorem pickedEu0_length (articles : List Article) :
    (pickedEu0 articles).length
      = min SLOTS_EUROPE (articles.filter (fun a => decide (a.geo = "europe"))).length := by
  unfold pickedEu0 bucketEu sortByScoreDesc
  rw [List.length_take, List.length_mergeSort]

theorem pickedGl0_length (articles : List Article) :
    (pickedGl0 articles).length
      = min SLOTS_GLOBAL (articles.filter (fun a => decide (a.geo = "global"))).length := by
  unfold pickedGl0 bucketGl sortByScoreDesc
  rw [List.length_take, List.length_mergeSort]

theorem totalPicked0_le (articles : List Article)
    (hgeo : ∀ a ∈ articles, a.geo = "romania" ∨ a.geo = "europe" ∨ a.geo = "global") :
    totalPicked0 articles ≤ TOTAL_ARTICLES ∧ totalPicked0 articles ≤ articles.length := by
  have h := partition3_length articles hgeo
  unfold totalPicked0
  rw [pickedRo0_length, pickedEu0_length, pickedGl0_length]
  unfold TOTAL_ARTICLES SLOTS_ROMANIA SLOTS_EUROPE SLOTS_GLOBAL
  constructor <;> omega

theorem mem_overflowPool (articles : List Article) {a : Article}
    (h : a ∈ overflowPool articles) : a ∈ articles := by
  unfold overflowPool sortByScoreDesc at h
  rw [List.mem_mergeSort] at h
  exact (List.mem_filter.mp h).1

theorem mem_extraPick (articles : List Article) {a : Article}
    (h : a ∈ extraPick articles) : a ∈ overflowPool articles := by
  unfold extraPick overflowOrdered at h
  have h2 := (List.take_sublist _ _).subset h
  rcases List.mem_append.mp h2 with h3 | h3
  · rcases List.mem_append.mp h3 with h4 | h4
    · exact (List.mem_filter.mp h4).1
    · exact (List.mem_filter.mp h4).1
  · exact (List.mem_filter.mp h3).1

theorem overflowOrdered_length (articles : List Article)
    (hgeo : ∀ a ∈ articles, a.geo = "romania" ∨ a.geo = "europe" ∨ a.geo = "global") :
    (overflowOrdered articles).length = (overflowPool articles).length := by
  have hgeo2 : ∀ a ∈ overflowPool articles,
      a.geo = "romania" ∨ a.geo = "europe" ∨ a.geo = "global" :=
    fun a ha => hgeo a (mem_overflowPool articles ha)
  have h := partition3_length (overflowPool articles) hgeo2
  unfold overflowOrdered euOverflow glOverflow roOverflow
  rw [List.length_append, List.length_append]
  omega

theorem extraPick_length (articles : List Article)
    (hids : (articles.map (fun a => a.id)).Nodup)
    (hgeo : ∀ a ∈ articles, a.geo = "romania" ∨ a.geo = "europe" ∨ a.geo = "global") :
    (extraPick articles).length
      = min (remainingNeeded articles) (articles.length - totalPicked0 articles) := by
  unfold extraPick
  rw [List.length_take, overflowOrdered_length articles hgeo,
    overflowPool_length articles hids hgeo]

theorem picked_lengths_sum (articles : List Article)
    (hgeo : ∀ a ∈ articles, a.geo = "romania" ∨ a.geo = "europe" ∨ a.geo = "global") :
    (pickedRo articles).length + (pickedEu articles).length + (pickedGl articles).length
      = totalPicked0 articles + (extraPick articles).length := by
  unfold pickedRo pickedEu pickedGl
  by_cases h : 0 < remainingNeeded articles
  · rw [if_pos h, if_pos h, if_pos h]
    simp only [List.length_append]
    have hx : ∀ a ∈ extraPick articles,
        a.geo = "romania" ∨ a.geo = "europe" ∨ a.geo = "global" :=
      fun a ha => hgeo a (mem_overflowPool articles (mem_extraPick articles ha))
    have hpart := partition3_length (extraPick articles) hx
    unfold totalPicked0
    omega
  · rw [if_neg h, if_neg h, if_neg h]
    have hz : (extraPick articles).length = 0 := by
      unfold extraPick
      rw [List.length_take]
      omega
    unfold totalPicked0
    omega

/-- C1: on a collection with pairwise distinct ids and every geography set
to one of the three buckets, `balanced_selection` returns exactly
`min 9 n` articles, hence never more than 9. -/
theorem balanced_selection_count (articles : List Article)
    (hids : (articles.map (fun a => a.id)).Nodup)
    (hgeo : ∀ a ∈ articles, a.geo = "romania" ∨ a.geo = "europe" ∨ a.geo = "global") :
    (balanced_selection articles).length = min TOTAL_ARTICLES articles.length ∧
    (balanced_selection articles).length ≤ TOTAL_ARTICLES := by
  have hsum := picked_lengths_sum articles hgeo
  have hle := totalPicked0_le articles hgeo
  have hex := extraPick_length articles hids hgeo
  unfold balanced_selection
  rw [List.length_take]
  rw [roundRobin_length _ _ _ _
    (le_trans (le_max_left _ _) (le_max_left _ _))
    (le_trans (le_max_right _ _) (le_max_left _ _))
    (le_max_right _ _)]
  rw [hsum, hex]
  unfold remainingNeeded at *
  unfold TOTAL_ARTICLES at *
  omega

/-- C1 witness: at the 3/3/3 concrete input the selection has length
`min 9 9 = 9`. -/
theorem balanced_selection_count_witness :
    (balanced_selection nine333).length = min TOTAL_ARTICLES nine333.length ∧
    (balanced_selection nine333).length ≤ TOTAL_ARTICLES :=
  balanced_selection_count nine333 (by decide) (by decide)

/-! ### Overflow priority (C2) -/

theorem mem_pickedRo0 (articles : List Article) {r : Article}
    (h : r ∈ pickedRo0 articles) : r ∈ articles ∧ r.geo = "romania" := by
  unfold pickedRo0 bucketRo sortByScoreDesc at h
  have h2 := (List.take_subset _ _) h
  rw [List.mem_mergeSort] at h2
  have h3 := List.mem_filter.mp h2
  exact ⟨h3.1, of_decide_eq_true h3.2⟩

theorem mem_pickedEu0 (articles : List Article) {r : Article}
    (h : r ∈ pickedEu0 articles) : r ∈ articles ∧ r.geo = "europe" := by
  unfold pickedEu0 bucketEu sortByScoreDesc at h
  have h2 := (List.take_subset _ _) h
  rw [List.mem_mergeSort] at h2
  have h3 := List.mem_filter.mp h2
  exact ⟨h3.1, of_decide_eq_true h3.2⟩

theorem mem_pickedGl0 (articles : List Article) {r : Article}
    (h : r ∈ pickedGl0 articles) : r ∈ articles ∧ r.geo = "global" := by
  unfold pickedGl0 bucketGl sortByScoreDesc at h
  have h2 := (List.take_subset _ _) h
  rw [List.mem_mergeSort] at h2
  have h3 := List.mem_filter.mp h2
  exact ⟨h3.1, of_decide_eq_true h3.2⟩

theorem mem_usedIds_eu (articles : List Article)
    (hids : (articles.map (fun a => a.id)).Nodup)
    {a : Article} (ha : a ∈ articles) (hgeoa : a.geo = "europe") :
    a.id ∈ usedIds articles ↔ a.id ∈ (pickedEu0 articles).map (fun x => x.id) := by
  have hinj := List.inj_on_of_nodup_map hids
  unfold usedIds
  rw [List.map_append, List.map_append, List.mem_append, List.mem_append]
  constructor
  · rintro ((h | h) | h)
    · obtain ⟨r, hr, hid⟩ := List.mem_map.mp h
      obtain ⟨hrmem, hrgeo⟩ := mem_pickedRo0 articles hr
      have : r = a := hinj hrmem ha hid
      rw [this] at hrgeo
      rw [hgeoa] at hrgeo
      exact absurd hrgeo (by decide)
    · exact h
    · obtain ⟨r, hr, hid⟩ := List.mem_map.mp h
      obtain ⟨hrmem, hrgeo⟩ := mem_pickedGl0 articles hr
      have : r = a := hinj hrmem ha hid
      rw [this] at hrgeo
      rw [hgeoa] at hrgeo
      exact absurd hrgeo (by decide)
  · intro h
    exact Or.inl (Or.inr h)

theorem euOverflow_length (articles : List Article)
    (hids : (articles.map (fun a => a.id)).Nodup) :
    (euOverflow articles).length
      = (articles.filter (fun a => decide (a.geo = "europe"))).length
        - (pickedEu0 articles).length := by
  unfold euOverflow
  have hperm : (overflowPool articles).Perm
      (articles.filter (fun a => decide (a.id ∉ usedIds articles))) :=
    List.mergeSort_perm _ _
  rw [(hperm.filter (fun a => decide (a.geo = "europe"))).length_eq]
  rw [List.filter_filter]
  have hswap : articles.filter
        (fun a => decide (a.geo = "europe") && decide (a.id ∉ usedIds articles))
      = (articles.filter (fun a => decide (a.geo = "europe"))).filter
        (fun a => decide (a.id ∉ usedIds articles)) := by
    rw [List.filter_filter]
    apply List.filter_congr
    intro b _
    exact Bool.and_comm _ _
  rw [hswap]
  have hE : ∀ b ∈ articles.filter (fun a => decide (a.geo = "europe")),
      b ∈ articles ∧ b.geo = "europe" := by
    intro b hb
    have h2 := List.mem_filter.mp hb
    exact ⟨h2.1, of_decide_eq_true h2.2⟩
  have hcongr : (articles.filter (fun a => decide (a.geo = "europe"))).filter
        (fun a => decide (a.id ∉ usedIds articles))
      = (articles.filter (fun a => decide (a.geo = "europe"))).filter
        (fun a => decide (a.id ∉ (pickedEu0 articles).map (fun x => x.id))) := by
    apply List.filter_congr
    intro b hb
    obtain ⟨hmem, hgeo⟩ := hE b hb
    exact decide_eq_decide.mpr (not_congr (mem_usedIds_eu articles hids hmem hgeo))
  rw [hcongr]
  have hEsub : (articles.filter (fun a => decide (a.geo = "europe"))).Sublist articles :=
    List.filter_sublist _
  have hEnodup : ((articles.filter (fun a => decide (a.geo = "europe"))).map
      (fun a => a.id)).Nodup :=
    (hEsub.map _).nodup hids
  have hP0sub : (pickedEu0 articles).Subperm
      (articles.filter (fun a => decide (a.geo = "europe"))) := by
    have hsl : (pickedEu0 articles).Sublist (bucketEu articles) := List.take_sublist _ _
    have hperm2 : (bucketEu articles).Perm
        (articles.filter (fun a => decide (a.geo = "europe"))) :=
      List.mergeSort_perm _ _
    exact hsl.subperm.trans hperm2.subperm
  have hSnodup : ((pickedEu0 articles).map (fun x => x.id)).Nodup :=
    subperm_nodup (subperm_map _ hP0sub) hEnodup
  have hSsub : ∀ s ∈ (pickedEu0 articles).map (fun x => x.id),
      s ∈ (articles.filter (fun a => decide (a.geo = "europe"))).map (fun a => a.id) :=
    fun s hs => (subperm_map (fun a => a.id) hP0sub).subset hs
  rw [length_filter_id_not_mem _ _ hEnodup hSnodup hSsub]
  rw [List.length_map]

/-- C2 counterexample: with exactly 1 romania, 4 europe and 4 global
articles (distinct ids, geographies set), the two overflow slots are NOT
both filled from the europe bucket: the europe overflow holds only one
article, so the second slot comes from the global bucket. -/
theorem overflow_priority_cx :
    (ex144.map (fun a => a.id)).Nodup ∧
    (∀ a ∈ ex144, a.geo = "romania" ∨ a.geo = "europe" ∨ a.geo = "global") ∧
    (ex144.filter (fun a => decide (a.geo = "romania"))).length = 1 ∧
    4 ≤ (ex144.filter (fun a => decide (a.geo = "europe"))).length ∧
    4 ≤ (ex144.filter (fun a => decide (a.geo = "global"))).length ∧
    ¬ (∀ a ∈ extraPick ex144, a.geo = "europe") := by
  have hb1 : bucketRo ex144 = ex144.filter (fun a => decide (a.geo = "romania")) := by
    unfold bucketRo sortByScoreDesc
    exact List.mergeSort_of_sorted (by decide)
  have hb2 : bucketEu ex144 = ex144.filter (fun a => decide (a.geo = "europe")) := by
    unfold bucketEu sortByScoreDesc
    exact List.mergeSort_of_sorted (by decide)
  have hb3 : bucketGl ex144 = ex144.filter (fun a => decide (a.geo = "global")) := by
    unfold bucketGl sortByScoreDesc
    exact List.mergeSort_of_sorted (by decide)
  have hused : usedIds ex144 = ["r1", "e1", "e2", "e3", "ga", "gb", "gc"] := by
    unfold usedIds pickedRo0 pickedEu0 pickedGl0
    rw [hb1, hb2, hb3]
    decide
  have hpool : overflowPool ex144
      = ex144.filter (fun a => decide (a.id ∉ ["r1", "e1", "e2", "e3", "ga", "gb", "gc"])) := by
    unfold overflowPool sortByScoreDesc
    rw [hused]
    exact List.mergeSort_of_sorted (by decide)
  have hextra : extraPick ex144
      = [mkA "e4" "" "" "" "europe" none 6, mkA "gd" "" "" "" "global" none 2] := by
    unfold extraPick overflowOrdered euOverflow glOverflow roOverflow remainingNeeded
      totalPicked0 pickedRo0 pickedEu0 pickedGl0
    rw [hb1, hb2, hb3, hpool]
    decide
  refine ⟨by decide, by decide, by decide, by decide, by decide, ?_⟩
  intro hall
  have hgd := hall (mkA "gd" "" "" "" "global" none 2)
    (by rw [hextra]; exact List.mem_cons_of_mem _ (List.mem_cons_self _ _))
  exact absurd hgd (by decide)

/-- C2 amended: when the selection is short, the open slots are filled from
the not-yet-selected articles (the overflow pool, characterised below),
ordered all europe first, then global, then romania, each group internally
score-sorted; and when the romania bucket holds exactly 1 article, the
europe bucket at least 5 and the global bucket at least 4, both unfilled
slots are filled from the europe bucket, not the global bucket.  (With
exactly 4 europe articles only one europe article is left over, so the
second slot falls to the global bucket — hence "at least 5".) -/
theorem overflow_priority_amended (articles : List Article)
    (hids : (articles.map (fun a => a.id)).Nodup)
    (hgeo : ∀ a ∈ articles, a.geo = "romania" ∨ a.geo = "europe" ∨ a.geo = "global")
    (hro : (articles.filter (fun a => decide (a.geo = "romania"))).length = 1)
    (heu : 5 ≤ (articles.filter (fun a => decide (a.geo = "europe"))).length)
    (hgl : 4 ≤ (articles.filter (fun a => decide (a.geo = "global"))).length) :
    remainingNeeded articles = 2 ∧
    (∀ a, a ∈ overflowPool articles ↔ a ∈ articles ∧ a.id ∉ usedIds articles) ∧
    overflowOrdered articles
      = euOverflow articles ++ glOverflow articles ++ roOverflow articles ∧
    List.Pairwise (fun a b => b.score ≤ a.score) (euOverflow articles) ∧
    extraPick articles = (euOverflow articles).take 2 ∧
    (extraPick articles).length = 2 ∧
    (∀ a ∈ extraPick articles, a.geo = "europe") ∧
    pickedEu articles = pickedEu0 articles ++ extraPick articles ∧
    pickedRo articles = pickedRo0 articles ∧
    pickedGl articles = pickedGl0 articles := by
  have hp0eu : (pickedEu0 articles).length = 3 := by
    rw [pickedEu0_length]
    unfold SLOTS_EUROPE
    omega
  have hrem : remainingNeeded articles = 2 := by
    unfold remainingNeeded totalPicked0 TOTAL_ARTICLES
    rw [pickedRo0_length, pickedEu0_length, pickedGl0_length]
    unfold SLOTS_ROMANIA SLOTS_EUROPE SLOTS_GLOBAL
    omega
  have heuov : 2 ≤ (euOverflow articles).length := by
    rw [euOverflow_length articles hids, hp0eu]
    omega
  have hpair : (euOverflow articles).Pairwise (fun a b => b.score ≤ a.score) := by
    have hpool : (overflowPool articles).Pairwise
        (fun a b => decide (b.score ≤ a.score) = true) := by
      unfold overflowPool sortByScoreDesc
      exact List.sorted_mergeSort
        (by
          intro a b c h1 h2
          simp only [decide_eq_true_iff] at h1 h2 ⊢
          omega)
        (by
          intro a b
          simp only [Bool.or_eq_true, decide_eq_true_iff]
          omega)
        _
    have hfil : (euOverflow articles).Pairwise
        (fun a b => decide (b.score ≤ a.score) = true) := by
      unfold euOverflow
      exact List.Pairwise.sublist (List.filter_sublist _) hpool
    exact hfil.imp (fun h => of_decide_eq_true h)
  have hextra : extraPick articles = (euOverflow articles).take 2 := by
    unfold extraPick overflowOrdered
    rw [hrem, List.append_assoc, List.take_append_of_le_length (by omega)]
  have hall : ∀ a ∈ extraPick articles, a.geo = "europe" := by
    intro a ha
    rw [hextra] at ha
    have h2 := (List.take_subset _ _) ha
    exact of_decide_eq_true (List.mem_filter.mp h2).2
  refine ⟨hrem, ?_, rfl, hpair, hextra, ?_, hall, ?_, ?_, ?_⟩
  · intro a
    unfold overflowPool sortByScoreDesc
    rw [List.mem_mergeSort, List.mem_filter]
    simp
  · rw [hextra, List.length_take]
    omega
  · unfold pickedEu
    rw [if_pos (by omega)]
    congr 1
    rw [List.filter_eq_self]
    intro a ha
    exact decide_eq_true (hall a ha)
  · unfold pickedRo
    rw [if_pos (by omega)]
    have hnil : (extraPick articles).filter (fun a => decide (a.geo = "romania")) = [] := by
      rw [List.filter_eq_nil_iff]
      intro a ha
      rw [hall a ha]
      decide
    rw [hnil, List.append_nil]
  · unfold pickedGl
    rw [if_pos (by omega)]
    have hnil : (extraPick articles).filter (fun a => decide (a.geo = "global")) = [] := by
      rw [List.filter_eq_nil_iff]
      intro a ha
      rw [hall a ha]
      decide
    rw [hnil, List.append_nil]

/-- C2 witness: at the concrete 1/5/4 input the two open slots are filled
with europe articles. -/
theorem overflow_priority_amended_witness :
    remainingNeeded ex154 = 2 ∧ (extraPick ex154).length = 2 ∧
    ∀ a ∈ extraPick ex154, a.geo = "europe" := by
  obtain ⟨h1, -, -, -, -, h6, h7, -, -, -⟩ :=
    overflow_priority_amended ex154 (by decide) (by decide) (by decide)
      (by decide) (by decide)
  exact ⟨h1, h6, h7⟩

/-! ### Interleaving (C3) -/

theorem nine333_picked :
    pickedRo nine333 = [mkA "r1" "" "" "" "romania" none 9,
      mkA "r2" "" "" "" "romania" none 8, mkA "r3" "" "" "" "romania" none 7] ∧
    pickedEu nine333 = [mkA "e1" "" "" "" "europe" none 6,
      mkA "e2" "" "" "" "europe" none 5, mkA "e3" "" "" "" "europe" none 4] ∧
    pickedGl nine333 = [mkA "g1" "" "" "" "global" none 3,
      mkA "g2" "" "" "" "global" none 2, mkA "g3" "" "" "" "global" none 1] := by
  have hb1 : bucketRo nine333 = nine333.filter (fun a => decide (a.geo = "romania")) := by
    unfold bucketRo sortByScoreDesc
    exact List.mergeSort_of_sorted (by decide)
  have hb2 : bucketEu nine333 = nine333.filter (fun a => decide (a.geo = "europe")) := by
    unfold bucketEu sortByScoreDesc
    exact List.mergeSort_of_sorted (by decide)
  have hb3 : bucketGl nine333 = nine333.filter (fun a => decide (a.geo = "global")) := by
    unfold bucketGl sortByScoreDesc
    exact List.mergeSort_of_sorted (by decide)
  have hrem : remainingNeeded nine333 = 0 := by
    unfold remainingNeeded totalPicked0 pickedRo0 pickedEu0 pickedGl0
    rw [hb1, hb2, hb3]
    decide
  refine ⟨?_, ?_, ?_⟩
  · unfold pickedRo
    rw [hrem, if_neg (by decide)]
    unfold pickedRo0
    rw [hb1]
    decide
  · unfold pickedEu
    rw [hrem, if_neg (by decide)]
    unfold pickedEu0
    rw [hb2]
    decide
  · unfold pickedGl
    rw [hrem, if_neg (by decide)]
    unfold pickedGl0
    rw [hb3]
    decide

/-- C3: `balanced_selection` emits round-robin by index over the three
selected lists, skipping an exhausted list, truncated to 9: with 3 articles
selected per bucket the order is r1, e1, g1, r2, e2, g2, r3, e3, g3; and on
the paragraph-8 scenario input the output is exactly country(10), region(9),
worldwide(20), country(8), region(7), worldwide(19), country(5),
worldwide(18), worldwide(17). -/
theorem interleave_spec (articles : List Article)
    (r1 r2 r3 e1 e2 e3 g1 g2 g3 : Article)
    (hr : pickedRo articles = [r1, r2, r3])
    (he : pickedEu articles = [e1, e2, e3])
    (hg : pickedGl articles = [g1, g2, g3]) :
    balanced_selection articles = [r1, e1, g1, r2, e2, g2, r3, e3, g3] ∧
    balanced_selection scenario16
      = [mkA "r1" "" "" "" "romania" none 10, mkA "e1" "" "" "" "europe" none 9,
         mkA "g1" "" "" "" "global" none 20, mkA "r2" "" "" "" "romania" none 8,
         mkA "e2" "" "" "" "europe" none 7, mkA "g2" "" "" "" "global" none 19,
         mkA "r3" "" "" "" "romania" none 5, mkA "g3" "" "" "" "global" none 18,
         mkA "g4" "" "" "" "global" none 17] := by
  constructor
  · unfold balanced_selection
    rw [hr, he, hg]
    rfl
  · have hb1 : bucketRo scenario16
        = scenario16.filter (fun a => decide (a.geo = "romania")) := by
      unfold bucketRo sortByScoreDesc
      exact List.mergeSort_of_sorted (by decide)
    have hb2 : bucketEu scenario16
        = scenario16.filter (fun a => decide (a.geo = "europe")) := by
      unfold bucketEu sortByScoreDesc
      exact List.mergeSort_of_sorted (by decide)
    have hb3 : bucketGl scenario16
        = scenario16.filter (fun a => decide (a.geo = "global")) := by
      unfold bucketGl sortByScoreDesc
      exact List.mergeSort_of_sorted (by decide)
    have hused : usedIds scenario16
        = ["r1", "r2", "r3", "e1", "e2", "g1", "g2", "g3"] := by
      unfold usedIds pickedRo0 pickedEu0 pickedGl0
      rw [hb1, hb2, hb3]
      decide
    have hpool : overflowPool scenario16
        = scenario16.filter
            (fun a => decide (a.id ∉ ["r1", "r2", "r3", "e1", "e2", "g1", "g2", "g3"])) := by
      unfold overflowPool sortByScoreDesc
      rw [hused]
      exact List.mergeSort_of_sorted (by decide)
    unfold balanced_selection pickedRo pickedEu pickedGl extraPick overflowOrdered
      euOverflow glOverflow roOverflow remainingNeeded totalPicked0
      pickedRo0 pickedEu0 pickedGl0
    rw [hb1, hb2, hb3, hpool]
    decide

/-- C3 witness: at the 3/3/3 concrete input the emitted order is
r1, e1, g1, r2, e2, g2, r3, e3, g3. -/
theorem interleave_spec_witness :
    balanced_selection nine333
      = [mkA "r1" "" "" "" "romania" none 9, mkA "e1" "" "" "" "europe" none 6,
         mkA "g1" "" "" "" "global" none 3, mkA "r2" "" "" "" "romania" none 8,
         mkA "e2" "" "" "" "europe" none 5, mkA "g2" "" "" "" "global" none 2,
         mkA "r3" "" "" "" "romania" none 7, mkA "e3" "" "" "" "europe" none 4,
         mkA "g3" "" "" "" "global" none 1] :=
  (interleave_spec nine333 _ _ _ _ _ _ _ _ _
    nine333_picked.1 nine333_picked.2.1 nine333_picked.2.2).1

end NewsAgent
